import Mathlib

/-!
Shallow embedding of `src/test_suit/utils.py` (class `ProgressiveReplay`)
and the relevant part of `src/test_suit/api.py` (the CSV-backed `loader`).

Dates are modelled as `Int` day numbers (`datetime.timedelta(days=1)` is `+ 1`),
timestamps (`market_time`) as `Int`.  A Python value returned by the loader is
modelled by `PyData`; a raised Python exception by `PyExn`.  Stateful methods
become functions `ReplayState → Except (PyExn × ReplayState) ReplayState`,
where the error case carries the state at the moment of the raise (partial
mutations included).
-/

/-- A market-data record; the engine only ever reads `market_time`. -/
structure MarketData where
  market_time : Int
  tag : String
  deriving Repr, DecidableEq

/-- Model of the Python value a loader call can return:
a `dict` (the engine extracts `list(data.values())`), a `list`, a `tuple`,
or anything else (e.g. `None`), which the engine ignores. -/
inductive PyData where
  | dict (vals : List MarketData)
  | list (items : List MarketData)
  | tuple (items : List MarketData)
  | pyNone
  | other
  deriving Repr, DecidableEq

/-- Model of a raised Python exception as seen by the engine. -/
inductive PyExn where
  | stopIteration
  | typeError (msg : String)
  | raised (msg : String)
  deriving Repr, DecidableEq

/-- A loader callable: `loader(market_date=..., ticker=..., dtype=...)`;
`.error` models the call raising. -/
def Loader := Int → String → String → Except String PyData

/-- Model of the external `Progress` collaborator (PyQuantKit), restricted to
the contract the engine uses: `reset()`, settable `prompt`, settable
`done_tasks`, `is_done`, and the side-effecting `output()` (counted). -/
structure Progress where
  tasks : Nat
  done_tasks : Nat
  prompt : String
  output_count : Nat
  deriving Repr, DecidableEq

def Progress.is_done (p : Progress) : Bool := p.tasks ≤ p.done_tasks

def Progress.resetP (p : Progress) : Progress := { p with done_tasks := 0 }

def Progress.output (p : Progress) : Progress :=
  { p with output_count := p.output_count + 1 }

/-- The `self.calendar` attribute: `None`, a callable, or an explicit list. -/
inductive CalendarSource where
  | pyNone
  | callable (f : Option Int → Option Int → List Int)
  | explicit (dates : List Int)

/-- The mutable attributes of a `ProgressiveReplay` instance. -/
structure ReplayState where
  start_date : Option Int
  end_date : Option Int
  calendar : CalendarSource
  replay_subscription : List (String × (String × String))
  replay_calendar : List Int
  replay_task : List MarketData
  date_progress : Nat
  progress : Progress

/-- Python `dict` assignment `m[k] = v`: overwrite in place if the key exists
(keeping its position), otherwise append at the end. -/
def dictInsert (m : List (String × α)) (k : String) (v : α) : List (String × α) :=
  match m with
  | [] => [(k, v)]
  | (k', v') :: rest =>
    if k' = k then (k, v) :: rest else (k', v') :: dictInsert rest k v

/-- Python `dict` lookup `m[k]`. -/
def dictGet (m : List (String × α)) (k : String) : Option α :=
  match m with
  | [] => none
  | (k', v') :: rest => if k' = k then some v' else dictGet rest k

/-- The `dtype` argument of `add_subscription`: a string, a class
(normalized via `__name__`), or anything else (rejected). -/
inductive DtypeArg where
  | str (s : String)
  | cls (name : String)
  | other
  deriving Repr, DecidableEq

/-- Embedding of `ProgressiveReplay.add_subscription` (utils.py lines 93-102). -/
def add_subscription (ticker : String) (dtype : DtypeArg) (s : ReplayState) :
    Except String ReplayState :=
  match dtype with
  | .str d =>
    .ok { s with
          replay_subscription :=
            dictInsert s.replay_subscription (ticker ++ "." ++ d) (ticker, d) }
  | .cls n =>
    .ok { s with
          replay_subscription :=
            dictInsert s.replay_subscription (ticker ++ "." ++ n) (ticker, n) }
  | .other => .error "ValueError: Invalid dtype, expect str or class."

/-- The `while md <= self.end_date: append; md += timedelta(days=1)` loop
of `reset` (utils.py lines 115-120). -/
def calendarRange (md ed : Int) : List Int :=
  if md ≤ ed then md :: calendarRange (md + 1) ed else []
termination_by (ed + 1 - md).toNat
decreasing_by
  rename_i h
  omega

/-- Embedding of `ProgressiveReplay.reset` (utils.py lines 113-128). The error case models
the `TypeError` Python raises when comparing `None` dates. -/
def reset (s : ReplayState) : Except String ReplayState :=
  match s.calendar with
  | .pyNone =>
    match s.start_date, s.end_date with
    | some sd, some ed =>
      .ok { s with replay_calendar := calendarRange sd ed,
                   date_progress := 0, progress := s.progress.resetP }
    | _, _ => .error "TypeError: comparison with NoneType"
  | .callable f =>
    .ok { s with replay_calendar := f s.start_date s.end_date,
                 date_progress := 0, progress := s.progress.resetP }
  | .explicit c =>
    .ok { s with replay_calendar := c,
                 date_progress := 0, progress := s.progress.resetP }

/-- Embedding of `if isinstance(data, dict): extend(list(data.values()))
elif isinstance(data, (list, tuple)): extend(data)` — otherwise nothing
(utils.py lines 139-142). -/
def extendFromData (queue : List MarketData) (d : PyData) : List MarketData :=
  match d with
  | .dict vs => queue ++ vs
  | .list xs => queue ++ xs
  | .tuple xs => queue ++ xs
  | .pyNone => queue
  | .other => queue

/-- The `for topic in self.replay_subscription` loop of `next_trade_day`
(utils.py lines 134-142): load each subscription in registration order and
extend the task queue; a raising loader aborts the loop, the error carrying
the queue as already extended by the earlier subscriptions. -/
def loadSubs (ld : Loader) (md : Int) (subs : List (String × (String × String)))
    (queue : List MarketData) : Except (String × List MarketData) (List MarketData) :=
  match subs with
  | [] => .ok queue
  | (_, (ticker, dtype)) :: rest =>
    match ld md ticker dtype with
    | .error e => .error (e, queue)
    | .ok data => loadSubs ld md rest (extendFromData queue data)

/-- Embedding of `self.replay_task.sort(key=lambda x: x.market_time)` — Python `list.sort`
is a stable sort, modelled by `List.mergeSort` (utils.py line 148). -/
def sortByTime (l : List MarketData) : List MarketData :=
  l.mergeSort (fun a b => a.market_time ≤ b.market_time)

/-- The progress prompt set by `next_trade_day` (utils.py line 133). -/
def promptString (md : Int) (cursor total : Nat) : String :=
  "Replay " ++ toString md ++ " (" ++ toString (cursor + 1) ++ " / " ++ toString total ++ "):"

/-- Embedding of `ProgressiveReplay.next_trade_day` (utils.py lines 130-148).
On `date_progress < len(replay_calendar)`: set the prompt, load every
subscription in registration order, increment `date_progress`, then stably
sort the whole queue by `market_time`.  Otherwise raise `StopIteration`
(the sort line is never reached, since `raise` exits first).  A raising
loader propagates with the partially extended queue, cursor not incremented,
and no sort applied. -/
def next_trade_day (ld : Loader) (s : ReplayState) :
    Except (PyExn × ReplayState) ReplayState :=
  if s.date_progress < s.replay_calendar.length then
    let market_date := s.replay_calendar.getD s.date_progress 0
    let s1 := { s with progress := { s.progress with
      prompt := promptString market_date s.date_progress s.replay_calendar.length } }
    match loadSubs ld market_date s.replay_subscription s.replay_task with
    | .error (e, q) => .error (.raised e, { s1 with replay_task := q })
    | .ok q =>
      .ok { s1 with replay_task := sortByTime q, date_progress := s.date_progress + 1 }
  else
    .error (.stopIteration, s)

/-- Modelled from the spec: `ProgressiveReplay.next_task` exists in the source
only as `raise NotImplementedError()` (utils.py lines 150-151); its behaviour
is missing from the repository.  Per spec §4.3, `pull_task()` removes and
returns the earliest-timestamp record not yet consumed (the front of the
sorted queue); when the queue is empty it calls `next_trade_day()` to refill
before attempting another pull; if `next_trade_day()` signals exhaustion,
it propagates. -/
def next_task (ld : Loader) (s : ReplayState) :
    Except (PyExn × ReplayState) (MarketData × ReplayState) :=
  match s.replay_task with
  | r :: rest => .ok (r, { s with replay_task := rest })
  | [] =>
    match hn : next_trade_day ld s with
    | .error e => .error e
    | .ok s' => next_task ld s'
termination_by s.replay_calendar.length - s.date_progress
decreasing_by
  have hc : s'.date_progress = s.date_progress + 1 ∧
      s'.replay_calendar = s.replay_calendar ∧
      s.date_progress < s.replay_calendar.length := by
    unfold next_trade_day at hn
    split at hn
    · rename_i hlt
      dsimp only at hn
      split at hn
      · simp at hn
      · simp only [Except.ok.injEq] at hn
        subst hn
        exact ⟨rfl, rfl, hlt⟩
    · simp at hn
  obtain ⟨h1, h2, h3⟩ := hc
  rw [h1, h2]
  omega

/-- Embedding of `ProgressiveReplay.__next__` (utils.py lines 153-162): delegate to
`next_task`; on `StopIteration`, if progress is not already done, set
`done_tasks = 1` and call `output()`; then `reset()`; then re-raise
`StopIteration`.  Exceptions other than `StopIteration` are not caught. -/
def dunderNext (ld : Loader) (s : ReplayState) :
    Except (PyExn × ReplayState) (MarketData × ReplayState) :=
  match next_task ld s with
  | .ok r => .ok r
  | .error (.stopIteration, s1) =>
    let s2 := if s1.progress.is_done then s1
      else { s1 with progress :=
        Progress.output { s1.progress with done_tasks := 1 } }
    match reset s2 with
    | .error msg => .error (.typeError msg, s2)
    | .ok s3 => .error (.stopIteration, s3)
  | .error e => .error e

/-- The `ticker`/`tickers` argument of `__init__`: a string, an iterable of
strings, or anything else (utils.py lines 65-70). -/
inductive TickersArg where
  | str (s : String)
  | iter (l : List String)
  | other

/-- The `dtype`/`dtypes` argument of `__init__`: a string, a class, an
iterable of dtype arguments, or anything else (utils.py lines 72-77). -/
inductive DtypesArg where
  | str (s : String)
  | cls (name : String)
  | iter (l : List DtypeArg)
  | other

/-- The keyword arguments of `ProgressiveReplay.__init__` that the
constructor inspects, plus `inspect.getfullargspec(loader).args` for the
signature check. -/
structure InitCfg where
  loaderArgs : List String
  start_date : Option Int
  end_date : Option Int
  calendar : CalendarSource
  tickers : TickersArg
  dtypes : DtypesArg
  subscription : List (String × DtypeArg)

/-- The named parameters `__init__` requires of the loader (utils.py line 62). -/
def requiredLoaderArgs : List String := ["market_date", "ticker", "dtype"]

/-- Embedding of `ProgressiveReplay.__init__` (utils.py lines 38-91): store the
configuration and empty collections, check the loader signature (raising
`TypeError` before any ticker/dtype normalization, subscription registration
or `reset()`), normalize `tickers` and `dtypes`, register `tickers × dtypes`
then the explicit `subscription` pairs, and finally call `reset()`. -/
def ProgressiveReplay_init (cfg : InitCfg) : Except String ReplayState :=
  let s0 : ReplayState :=
    { start_date := cfg.start_date, end_date := cfg.end_date,
      calendar := cfg.calendar, replay_subscription := [],
      replay_calendar := [], replay_task := [], date_progress := 0,
      progress := { tasks := 1, done_tasks := 0, prompt := "", output_count := 0 } }
  if ¬ (requiredLoaderArgs.all (fun a => cfg.loaderArgs.contains a)) then
    .error "TypeError: loader function has 3 requires args, market_date, ticker and dtype."
  else do
    let tickers ← match cfg.tickers with
      | .str t => Except.ok [t]
      | .iter l => Except.ok l
      | .other => Except.error "TypeError: Invalid ticker, expect str or list[str]"
    let dtypes ← match cfg.dtypes with
      | .str d => Except.ok [DtypeArg.str d]
      | .cls n => Except.ok [DtypeArg.cls n]
      | .iter l => Except.ok l
      | .other => Except.error "TypeError: Invalid dtype, expect str or list[str]"
    let s1 ← tickers.foldlM
      (fun s t => dtypes.foldlM (fun s d => add_subscription t d s) s) s0
    let s2 ← cfg.subscription.foldlM (fun s td => add_subscription td.1 td.2 s) s1
    reset s2

/-- Embedding of the `loader` of api.py (lines 10-32), with the CSV reading of a directory
(`transactions` or `ticks`) abstracted as an oracle `readCSV`: `TradeData`
and `TickData` return the parsed rows as a list; `TransactionData` is an
unimplemented branch (`pass`) returning Python `None`; any other dtype
raises `ValueError`. -/
def apiLoader (readCSV : Int → String → String → Except String (List MarketData)) :
    Loader := fun md ticker dtype =>
  if dtype = "TradeData" then
    match readCSV md ticker "transactions" with
    | .error e => .error e
    | .ok l => .ok (.list l)
  else if dtype = "TickData" then
    match readCSV md ticker "ticks" with
    | .error e => .error e
    | .ok l => .ok (.list l)
  else if dtype = "TransactionData" then .ok .pyNone
  else .error "ValueError: Unsupported data type"

/-! Concrete fixtures used by the witness theorems. -/

def wProgress : Progress := { tasks := 1, done_tasks := 0, prompt := "", output_count := 0 }

def wLoaderEmpty : Loader := fun _ _ _ => .ok (.list [])

def wState (cal : List Int) (subs : List (String × (String × String)))
    (queue : List MarketData) (cursor : Nat) : ReplayState :=
  { start_date := none, end_date := none, calendar := .explicit cal,
    replay_subscription := subs, replay_calendar := cal,
    replay_task := queue, date_progress := cursor, progress := wProgress }

def stC1 : ReplayState := wState [] [] [⟨1, "a"⟩, ⟨2, "b"⟩] 0

def stC2 : ReplayState :=
  { start_date := some 0, end_date := some 2, calendar := .pyNone,
    replay_subscription := [], replay_calendar := [], replay_task := [],
    date_progress := 0, progress := wProgress }

def stC3 : ReplayState := wState [5] [("A.TradeData", ("A", "TradeData"))] [] 0

def stC4 : ReplayState := wState [0, 1, 2] [] [⟨1, "q"⟩] 3

def stC5 : ReplayState := wState [] [] [] 0

def stC7 : ReplayState :=
  wState [5] [("A.TradeData", ("A", "TradeData")),
              ("B.TradeData", ("B", "TradeData")),
              ("C.TradeData", ("C", "TradeData"))] [] 0

def ldC7 : Loader := fun _ t _ =>
  if t = "A" then .ok (.list [⟨3, "p"⟩]) else .error "IOError"

def stC8 : ReplayState := wState [5] [] [⟨7, "stale"⟩] 1

def stC9 : ReplayState := wState [] [] [] 0

def stC10 : ReplayState := wState [9] [("T.TransactionData", ("T", "TransactionData"))] [] 0

def rcsvC10 : Int → String → String → Except String (List MarketData) :=
  fun _ _ _ => .error "unused"

def cfgC6 : InitCfg :=
  { loaderArgs := ["market_date", "ticker"], start_date := none, end_date := none,
    calendar := .explicit [], tickers := .iter [], dtypes := .iter [],
    subscription := [] }

def stC3' : ReplayState :=
  { stC3 with
    progress := { wProgress with prompt := promptString 5 0 1 },
    replay_task := sortByTime [],
    date_progress := 1 }

def stC5done : ReplayState :=
  { stC5 with progress := Progress.output { stC5.progress with done_tasks := 1 } }

def stC5' : ReplayState :=
  { stC5done with
    replay_calendar := [],
    date_progress := 0,
    progress := stC5done.progress.resetP }

/-! Helper lemmas about the embedded operations. -/

theorem loadSubs_ok_append (ld : Loader) (md : Int) :
    ∀ (subs : List (String × (String × String))) (queue q : List MarketData),
    loadSubs ld md subs queue = .ok q → ∃ adds, q = queue ++ adds := by
  intro subs
  induction subs with
  | nil =>
    intro queue q h
    simp [loadSubs] at h
    exact ⟨[], by simp [h]⟩
  | cons hd tl ih =>
    intro queue q h
    obtain ⟨topic, ticker, dtype⟩ := hd
    simp only [loadSubs] at h
    cases hld : ld md ticker dtype with
    | error e => rw [hld] at h; simp at h
    | ok data =>
      rw [hld] at h
      obtain ⟨adds, hadds⟩ := ih (extendFromData queue data) q h
      cases data <;> simp [extendFromData] at hadds ⊢ <;> simp [hadds]

theorem loadSubs_append_ok (ld : Loader) (md : Int) :
    ∀ (pre subs : List (String × (String × String))) (queue q : List MarketData),
    loadSubs ld md pre queue = .ok q →
    loadSubs ld md (pre ++ subs) queue = loadSubs ld md subs q := by
  intro pre
  induction pre with
  | nil =>
    intro subs queue q h
    simp [loadSubs] at h
    simp [h]
  | cons hd tl ih =>
    intro subs queue q h
    obtain ⟨topic, ticker, dtype⟩ := hd
    simp only [loadSubs, List.cons_append] at h ⊢
    cases hld : ld md ticker dtype with
    | error e =>
      rw [hld] at h
      exact Except.noConfusion h
    | ok data =>
      rw [hld] at h
      exact ih subs (extendFromData queue data) q h

theorem next_trade_day_ok_shape (ld : Loader) (s s' : ReplayState)
    (h : next_trade_day ld s = .ok s') :
    s.date_progress < s.replay_calendar.length ∧
    ∃ q, loadSubs ld (s.replay_calendar.getD s.date_progress 0)
          s.replay_subscription s.replay_task = .ok q ∧
      s' = { s with
             progress := { s.progress with
               prompt := promptString (s.replay_calendar.getD s.date_progress 0)
                 s.date_progress s.replay_calendar.length },
             replay_task := sortByTime q,
             date_progress := s.date_progress + 1 } := by
  unfold next_trade_day at h
  split at h
  · rename_i hc
    dsimp only at h
    split at h
    · simp at h
    · rename_i q hls
      simp only [Except.ok.injEq] at h
      exact ⟨hc, q, hls, h.symm⟩
  · simp at h

theorem next_trade_day_err_shape (ld : Loader) (s : ReplayState)
    (e : String) (q : List MarketData)
    (hc : s.date_progress < s.replay_calendar.length)
    (hls : loadSubs ld (s.replay_calendar.getD s.date_progress 0)
        s.replay_subscription s.replay_task = .error (e, q)) :
    next_trade_day ld s = .error (.raised e,
      { s with
        progress := { s.progress with
          prompt := promptString (s.replay_calendar.getD s.date_progress 0)
            s.date_progress s.replay_calendar.length },
        replay_task := q }) := by
  unfold next_trade_day
  rw [if_pos hc]
  dsimp only
  rw [hls]

theorem calendarRange_eq_map :
    ∀ (n : Nat) (sd ed : Int), (ed + 1 - sd).toNat = n →
    calendarRange sd ed = (List.range n).map (fun i : Nat => sd + (i : Int)) := by
  intro n
  induction n with
  | zero =>
    intro sd ed h
    rw [calendarRange]
    have hgt : ¬ sd ≤ ed := by omega
    simp [hgt]
  | succ k ih =>
    intro sd ed h
    rw [calendarRange]
    have hle : sd ≤ ed := by omega
    simp only [hle, if_true]
    rw [ih (sd + 1) ed (by omega), List.range_succ_eq_map]
    simp only [List.map_cons, List.map_map, List.cons.injEq]
    refine ⟨by simp, ?_⟩
    apply List.map_congr_left
    intro i _
    simp only [Function.comp_apply]
    push_cast
    ring

theorem calendarRange_length (sd ed : Int) :
    (calendarRange sd ed).length = (ed + 1 - sd).toNat := by
  rw [calendarRange_eq_map (ed + 1 - sd).toNat sd ed rfl]
  rw [List.length_map, List.length_range]

theorem calendarRange_getD (sd ed : Int) (i : Nat)
    (h : i < (ed + 1 - sd).toNat) :
    (calendarRange sd ed).getD i 0 = sd + i := by
  rw [calendarRange_eq_map (ed + 1 - sd).toNat sd ed rfl]
  have hlen : i < ((List.range ((ed + 1 - sd).toNat)).map
      (fun i : Nat => sd + (i : Int))).length := by
    rw [List.length_map, List.length_range]; exact h
  rw [List.getD_eq_getElem?_getD, List.getElem?_eq_getElem hlen]
  simp

theorem dictInsert_idem (m : List (String × α)) (k : String) (v : α) :
    dictInsert (dictInsert m k v) k v = dictInsert m k v := by
  induction m with
  | nil => simp [dictInsert]
  | cons hd tl ih =>
    obtain ⟨k', v'⟩ := hd
    by_cases hk : k' = k
    · simp [dictInsert, hk]
    · simp [dictInsert, hk, ih]

theorem dictGet_dictInsert (m : List (String × α)) (k : String) (v : α) :
    dictGet (dictInsert m k v) k = some v := by
  induction m with
  | nil => simp [dictInsert, dictGet]
  | cons hd tl ih =>
    obtain ⟨k', v'⟩ := hd
    by_cases hk : k' = k
    · simp [dictInsert, hk, dictGet]
    · simp [dictInsert, hk, dictGet, ih]

theorem sortByTime_pairwise (l : List MarketData) :
    (sortByTime l).Pairwise (fun a b => a.market_time ≤ b.market_time) := by
  have trans : ∀ a b c : MarketData,
      decide (a.market_time ≤ b.market_time) → decide (b.market_time ≤ c.market_time) →
      decide (a.market_time ≤ c.market_time) := by
    intro a b c hab hbc
    simp only [decide_eq_true_eq] at hab hbc ⊢
    omega
  have total : ∀ a b : MarketData,
      decide (a.market_time ≤ b.market_time) || decide (b.market_time ≤ a.market_time) := by
    intro a b
    simp only [Bool.or_eq_true, decide_eq_true_eq]
    omega
  have h := List.sorted_mergeSort trans total l
  apply h.imp
  intro a b hab
  simpa using hab

theorem sortByTime_filter_time (l : List MarketData) (t : Int) :
    (sortByTime l).filter (fun r => r.market_time == t) =
      l.filter (fun r => r.market_time == t) := by
  have trans : ∀ a b c : MarketData,
      decide (a.market_time ≤ b.market_time) → decide (b.market_time ≤ c.market_time) →
      decide (a.market_time ≤ c.market_time) := by
    intro a b c hab hbc
    simp only [decide_eq_true_eq] at hab hbc ⊢; omega
  have total : ∀ a b : MarketData,
      decide (a.market_time ≤ b.market_time) || decide (b.market_time ≤ a.market_time) := by
    intro a b
    simp only [Bool.or_eq_true, decide_eq_true_eq]; omega
  have hsub : List.Sublist (l.filter (fun r => r.market_time == t)) l :=
    List.filter_sublist l
  have hpair : (l.filter (fun r => r.market_time == t)).Pairwise
      (fun a b => decide (a.market_time ≤ b.market_time)) := by
    apply List.pairwise_of_forall_mem_list
    intro a ha b hb
    have ha' := (List.mem_filter.mp ha).2
    have hb' := (List.mem_filter.mp hb).2
    simp only [beq_iff_eq] at ha' hb'
    simp [ha', hb']
  have hstable : List.Sublist (l.filter (fun r => r.market_time == t)) (sortByTime l) :=
    List.sublist_mergeSort trans total hpair hsub
  have hperm : List.Perm (sortByTime l) l := List.mergeSort_perm l _
  have hlen : ((sortByTime l).filter (fun r => r.market_time == t)).length =
      (l.filter (fun r => r.market_time == t)).length :=
    (hperm.filter _).length_eq
  have hfsub : List.Sublist (l.filter (fun r => r.market_time == t))
      ((sortByTime l).filter (fun r => r.market_time == t)) := by
    have := hstable.filter (fun r => r.market_time == t)
    simpa [List.filter_filter] using this
  exact (hfsub.eq_of_length hlen.symm).symm

theorem next_task_eq_cons (ld : Loader) (s : ReplayState)
    (r : MarketData) (rest : List MarketData) (h : s.replay_task = r :: rest) :
    next_task ld s = .ok (r, { s with replay_task := rest }) := by
  rw [next_task]
  split
  · rename_i r' rest' h'
    rw [h] at h'
    cases h'
    rfl
  · rename_i h'
    rw [h] at h'
    cases h'

theorem next_task_eq_nil_err (ld : Loader) (s : ReplayState)
    (e : PyExn × ReplayState) (h : s.replay_task = [])
    (hn : next_trade_day ld s = .error e) :
    next_task ld s = .error e := by
  rw [next_task]
  split
  · rename_i r' rest' h'
    rw [h] at h'
    cases h'
  · split
    · rename_i e' hn'
      rw [hn] at hn'
      cases hn'
      rfl
    · rename_i s' hn'
      rw [hn] at hn'
      cases hn'

theorem next_task_eq_nil_ok (ld : Loader) (s s' : ReplayState)
    (h : s.replay_task = []) (hn : next_trade_day ld s = .ok s') :
    next_task ld s = next_task ld s' := by
  rw [next_task]
  split
  · rename_i r' rest' h'
    rw [h] at h'
    cases h'
  · split
    · rename_i e' hn'
      rw [hn] at hn'
      cases hn'
    · rename_i s'' hn'
      rw [hn] at hn'
      cases hn'
      rfl

/-! Claim theorems. -/

/-- C2: for every pair of dates with `start_date ≤ end_date`, when no explicit
calendar is supplied (`calendar is None`), `reset()` builds a replay calendar
of length `(end_date - start_date).days + 1` whose entries increase by exactly
one day per step, starting at `start_date` and ending at `end_date`. -/
theorem reset_builds_daily_calendar (s : ReplayState) (sd ed : Int)
    (h1 : s.calendar = CalendarSource.pyNone)
    (h2 : s.start_date = some sd) (h3 : s.end_date = some ed)
    (hle : sd ≤ ed) :
    ∃ s', reset s = .ok s' ∧
      s'.replay_calendar.length = (ed - sd).toNat + 1 ∧
      s'.replay_calendar.getD 0 0 = sd ∧
      s'.replay_calendar.getD ((ed - sd).toNat) 0 = ed ∧
      ∀ i : Nat, i + 1 < s'.replay_calendar.length →
        s'.replay_calendar.getD (i + 1) 0 = s'.replay_calendar.getD i 0 + 1 := by
  refine ⟨{ s with
            replay_calendar := calendarRange sd ed,
            date_progress := 0,
            progress := s.progress.resetP }, ?_, ?_, ?_, ?_, ?_⟩
  · unfold reset
    rw [h1, h2, h3]
  · dsimp only
    rw [calendarRange_length]
    omega
  · dsimp only
    rw [calendarRange_getD sd ed 0 (by omega)]
    simp
  · dsimp only
    rw [calendarRange_getD sd ed _ (by omega)]
    omega
  · dsimp only
    intro i hi
    rw [calendarRange_length] at hi
    rw [calendarRange_getD sd ed (i + 1) (by omega),
        calendarRange_getD sd ed i (by omega)]
    push_cast
    ring

theorem reset_builds_daily_calendar_witness :
    (0 : Int) ≤ 2 ∧
    ∃ s', reset stC2 = .ok s' ∧
      s'.replay_calendar.length = ((2 : Int) - 0).toNat + 1 ∧
      s'.replay_calendar.getD 0 0 = 0 ∧
      s'.replay_calendar.getD (((2 : Int) - 0).toNat) 0 = 2 ∧
      ∀ i : Nat, i + 1 < s'.replay_calendar.length →
        s'.replay_calendar.getD (i + 1) 0 = s'.replay_calendar.getD i 0 + 1 :=
  ⟨by norm_num, reset_builds_daily_calendar stC2 0 2 rfl rfl rfl (by norm_num)⟩

/-- C4: when `date_progress >= len(replay_calendar)`, `next_trade_day()`
raises `StopIteration` and the state — in particular the task queue — is
left completely unchanged (the sort line is never reached). -/
theorem next_trade_day_exhaustion_no_mutation (ld : Loader) (s : ReplayState)
    (h : s.replay_calendar.length ≤ s.date_progress) :
    next_trade_day ld s = .error (.stopIteration, s) := by
  unfold next_trade_day
  rw [if_neg (by omega)]

theorem next_trade_day_exhaustion_no_mutation_witness :
    stC4.replay_calendar.length ≤ stC4.date_progress ∧
    next_trade_day wLoaderEmpty stC4 = .error (.stopIteration, stC4) :=
  ⟨by decide, next_trade_day_exhaustion_no_mutation wLoaderEmpty stC4 (by decide)⟩

/-- C8: every successful `reset()` rebuilds the calendar according to the
three-mode rule, zeroes the date cursor, resets the Progress tracker, and
leaves the task queue (and the subscription registry) unchanged. -/
theorem reset_preserves_task_queue (s s' : ReplayState) (h : reset s = .ok s') :
    s'.replay_task = s.replay_task ∧
    s'.date_progress = 0 ∧
    s'.progress = s.progress.resetP ∧
    s'.replay_subscription = s.replay_subscription ∧
    (∀ sd ed, s.calendar = CalendarSource.pyNone → s.start_date = some sd →
      s.end_date = some ed → s'.replay_calendar = calendarRange sd ed) ∧
    (∀ f, s.calendar = CalendarSource.callable f →
      s'.replay_calendar = f s.start_date s.end_date) ∧
    (∀ c, s.calendar = CalendarSource.explicit c → s'.replay_calendar = c) := by
  unfold reset at h
  cases hc : s.calendar with
  | pyNone =>
    rw [hc] at h
    cases hsd : s.start_date with
    | none =>
      rw [hsd] at h
      cases hed : s.end_date with
      | none => rw [hed] at h; exact Except.noConfusion h
      | some ed => rw [hed] at h; exact Except.noConfusion h
    | some sd =>
      rw [hsd] at h
      cases hed : s.end_date with
      | none => rw [hed] at h; exact Except.noConfusion h
      | some ed =>
        rw [hed] at h
        have hs' := Except.ok.inj h
        subst hs'
        refine ⟨rfl, rfl, rfl, rfl, ?_, ?_, ?_⟩
        · intro sd' ed' _ h2 h3
          cases h2
          cases h3
          rfl
        · intro f hf
          exact CalendarSource.noConfusion hf
        · intro c hcx
          exact CalendarSource.noConfusion hcx
  | callable f =>
    rw [hc] at h
    have hs' := Except.ok.inj h
    subst hs'
    refine ⟨rfl, rfl, rfl, rfl, ?_, ?_, ?_⟩
    · intro sd' ed' h1 _ _
      exact CalendarSource.noConfusion h1
    · intro f' hf
      cases hf
      rfl
    · intro c hcx
      exact CalendarSource.noConfusion hcx
  | explicit c =>
    rw [hc] at h
    have hs' := Except.ok.inj h
    subst hs'
    refine ⟨rfl, rfl, rfl, rfl, ?_, ?_, ?_⟩
    · intro sd' ed' h1 _ _
      exact CalendarSource.noConfusion h1
    · intro f hf
      exact CalendarSource.noConfusion hf
    · intro c' hcx
      cases hcx
      rfl

theorem reset_preserves_task_queue_witness :
    ∃ s', reset stC8 = .ok s' ∧
      (s'.replay_task = stC8.replay_task ∧
       s'.date_progress = 0 ∧
       s'.progress = stC8.progress.resetP ∧
       s'.replay_subscription = stC8.replay_subscription ∧
       (∀ sd ed, stC8.calendar = CalendarSource.pyNone → stC8.start_date = some sd →
         stC8.end_date = some ed → s'.replay_calendar = calendarRange sd ed) ∧
       (∀ f, stC8.calendar = CalendarSource.callable f →
         s'.replay_calendar = f stC8.start_date stC8.end_date) ∧
       (∀ c, stC8.calendar = CalendarSource.explicit c → s'.replay_calendar = c)) ∧
      s'.replay_task = [⟨7, "stale"⟩] :=
  ⟨{ stC8 with
     replay_calendar := [5],
     date_progress := 0,
     progress := stC8.progress.resetP },
   rfl, reset_preserves_task_queue stC8 _ rfl, rfl⟩

/-- C9: `add_subscription` normalizes a string or class data-kind to its
string name, inserts or overwrites the registry entry at key
`f"{ticker}.{dtype}"`, and is idempotent: adding the same pair twice leaves
the state equal to adding it once. -/
theorem add_subscription_overwrite_idempotent (s : ReplayState)
    (ticker name : String) (d : DtypeArg)
    (hd : d = DtypeArg.str name ∨ d = DtypeArg.cls name) :
    ∃ s', add_subscription ticker d s = .ok s' ∧
      s'.replay_subscription =
        dictInsert s.replay_subscription (ticker ++ "." ++ name) (ticker, name) ∧
      dictGet s'.replay_subscription (ticker ++ "." ++ name) = some (ticker, name) ∧
      add_subscription ticker d s' = .ok s' := by
  cases hd with
  | inl h =>
    subst h
    refine ⟨_, rfl, rfl, dictGet_dictInsert _ _ _, ?_⟩
    simp [add_subscription, dictInsert_idem]
  | inr h =>
    subst h
    refine ⟨_, rfl, rfl, dictGet_dictInsert _ _ _, ?_⟩
    simp [add_subscription, dictInsert_idem]

theorem add_subscription_overwrite_idempotent_witness :
    (DtypeArg.cls "TradeData" = DtypeArg.str "TradeData" ∨
     DtypeArg.cls "TradeData" = DtypeArg.cls "TradeData") ∧
    ∃ s', add_subscription "000004.SZ" (DtypeArg.cls "TradeData") stC9 = .ok s' ∧
      s'.replay_subscription =
        dictInsert stC9.replay_subscription ("000004.SZ" ++ "." ++ "TradeData")
          ("000004.SZ", "TradeData") ∧
      dictGet s'.replay_subscription ("000004.SZ" ++ "." ++ "TradeData") =
        some ("000004.SZ", "TradeData") ∧
      add_subscription "000004.SZ" (DtypeArg.cls "TradeData") s' = .ok s' :=
  ⟨Or.inr rfl,
   add_subscription_overwrite_idempotent stC9 "000004.SZ" "TradeData"
     (DtypeArg.cls "TradeData") (Or.inr rfl)⟩

/-- C6: constructing the engine with a loader whose signature does not
include all three named parameters `market_date`, `ticker` and `dtype`
fails with the contract-violation `TypeError`, regardless of every other
configuration field (so before any subscription or calendar processing
completes). -/
theorem init_loader_signature_check (cfg : InitCfg)
    (h : ¬ ∀ a ∈ requiredLoaderArgs, a ∈ cfg.loaderArgs) :
    ProgressiveReplay_init cfg =
      .error "TypeError: loader function has 3 requires args, market_date, ticker and dtype." := by
  unfold ProgressiveReplay_init
  rw [if_pos]
  intro hall
  apply h
  intro a ha
  have h2 := List.all_eq_true.mp hall a ha
  simpa using h2

theorem init_loader_signature_check_witness :
    (¬ ∀ a ∈ requiredLoaderArgs, a ∈ cfgC6.loaderArgs) ∧
    ProgressiveReplay_init cfgC6 =
      .error "TypeError: loader function has 3 requires args, market_date, ticker and dtype." :=
  ⟨by decide, init_loader_signature_check cfgC6 (by decide)⟩

theorem loadSubs_all_transaction
    (readCSV : Int → String → String → Except String (List MarketData)) (md : Int) :
    ∀ (subs : List (String × (String × String))),
    (∀ p ∈ subs, p.2.2 = "TransactionData") →
    ∀ q, loadSubs (apiLoader readCSV) md subs q = .ok q := by
  intro subs
  induction subs with
  | nil => intro _ q; rfl
  | cons hd tl ih =>
    intro hall q
    obtain ⟨topic, ticker, dtype⟩ := hd
    have hdt : dtype = "TransactionData" :=
      hall (topic, (ticker, dtype)) (List.mem_cons_self _ _)
    subst hdt
    simp only [loadSubs]
    rw [show apiLoader readCSV md ticker "TransactionData" = .ok PyData.pyNone from rfl]
    exact ih (fun p hp => hall p (List.mem_cons_of_mem _ hp)) q

/-- C3: after one successful date-advance (`next_trade_day`) the task queue
is sorted non-decreasing by `market_time`, and the sort is stable: for every
timestamp, the records carrying it appear in exactly the order they were
appended by the subscription-processing loop (the `loadSubs` result). -/
theorem next_trade_day_sorted_stable (ld : Loader) (s s' : ReplayState)
    (h : next_trade_day ld s = .ok s') :
    s'.replay_task.Pairwise (fun a b => a.market_time ≤ b.market_time) ∧
    ∀ q, loadSubs ld (s.replay_calendar.getD s.date_progress 0)
        s.replay_subscription s.replay_task = .ok q →
      ∀ t : Int, s'.replay_task.filter (fun r => r.market_time == t) =
        q.filter (fun r => r.market_time == t) := by
  obtain ⟨hc, q0, hls, hs'⟩ := next_trade_day_ok_shape ld s s' h
  subst hs'
  constructor
  · exact sortByTime_pairwise q0
  · intro q hq t
    rw [hls] at hq
    have hqq := Except.ok.inj hq
    subst hqq
    exact sortByTime_filter_time q0 t

theorem next_trade_day_sorted_stable_witness :
    next_trade_day wLoaderEmpty stC3 = .ok stC3' ∧
    (stC3'.replay_task.Pairwise (fun a b => a.market_time ≤ b.market_time) ∧
     ∀ q, loadSubs wLoaderEmpty (stC3.replay_calendar.getD stC3.date_progress 0)
         stC3.replay_subscription stC3.replay_task = .ok q →
       ∀ t : Int, stC3'.replay_task.filter (fun r => r.market_time == t) =
         q.filter (fun r => r.market_time == t)) :=
  ⟨rfl, next_trade_day_sorted_stable wLoaderEmpty stC3 stC3' rfl⟩

/-- C7: if during a date-advance the loader raises on one subscription after
the earlier ones succeeded, the queue afterwards holds exactly the records
appended by those earlier subscriptions (no sort applied), the date cursor is
not incremented, and the error propagates to the caller. -/
theorem next_trade_day_loader_failure_partial (ld : Loader) (s : ReplayState)
    (pre rest : List (String × (String × String))) (topic ticker dtype e : String)
    (q : List MarketData)
    (hsub : s.replay_subscription = pre ++ (topic, (ticker, dtype)) :: rest)
    (hc : s.date_progress < s.replay_calendar.length)
    (hpre : loadSubs ld (s.replay_calendar.getD s.date_progress 0) pre
        s.replay_task = .ok q)
    (hfail : ld (s.replay_calendar.getD s.date_progress 0) ticker dtype = .error e) :
    ∃ s'', next_trade_day ld s = .error (.raised e, s'') ∧
      s''.replay_task = q ∧
      s''.date_progress = s.date_progress ∧
      s''.replay_calendar = s.replay_calendar ∧
      ∃ adds, q = s.replay_task ++ adds := by
  have hls : loadSubs ld (s.replay_calendar.getD s.date_progress 0)
      s.replay_subscription s.replay_task = .error (e, q) := by
    rw [hsub]
    rw [loadSubs_append_ok ld _ pre _ s.replay_task q hpre]
    simp only [loadSubs]
    rw [hfail]
  have herr := next_trade_day_err_shape ld s e q hc hls
  exact ⟨_, herr, rfl, rfl, rfl,
    loadSubs_ok_append ld _ pre s.replay_task q hpre⟩

theorem next_trade_day_loader_failure_partial_witness :
    stC7.replay_subscription = [("A.TradeData", ("A", "TradeData"))] ++
      ("B.TradeData", ("B", "TradeData")) :: [("C.TradeData", ("C", "TradeData"))] ∧
    stC7.date_progress < stC7.replay_calendar.length ∧
    ∃ s'', next_trade_day ldC7 stC7 = .error (.raised "IOError", s'') ∧
      s''.replay_task = [⟨3, "p"⟩] ∧
      s''.date_progress = stC7.date_progress ∧
      s''.replay_calendar = stC7.replay_calendar ∧
      ∃ adds, [⟨3, "p"⟩] = stC7.replay_task ++ adds :=
  ⟨rfl, by decide,
   next_trade_day_loader_failure_partial ldC7 stC7
     [("A.TradeData", ("A", "TradeData"))] [("C.TradeData", ("C", "TradeData"))]
     "B.TradeData" "B" "TradeData" "IOError" [⟨3, "p"⟩] rfl (by decide) rfl rfl⟩

/-- C10: a loader result that is neither a dict nor a list nor a tuple (such
as the `None` that the loader of api.py returns for dtype `TransactionData`)
silently contributes nothing to the task queue, raises no error, and the
date-advance still increments the cursor — indistinguishable from an empty
load. -/
theorem next_trade_day_ignores_non_collection
    (readCSV : Int → String → String → Except String (List MarketData))
    (s : ReplayState)
    (hc : s.date_progress < s.replay_calendar.length)
    (hall : ∀ p ∈ s.replay_subscription, p.2.2 = "TransactionData") :
    (∀ (ld : Loader) (md : Int) (topic ticker dtype : String)
        (rest : List (String × (String × String))) (q : List MarketData),
      ld md ticker dtype = .ok PyData.pyNone →
      loadSubs ld md ((topic, (ticker, dtype)) :: rest) q = loadSubs ld md rest q) ∧
    ∃ s', next_trade_day (apiLoader readCSV) s = .ok s' ∧
      s'.replay_task = sortByTime s.replay_task ∧
      s'.date_progress = s.date_progress + 1 := by
  constructor
  · intro ld md topic ticker dtype rest q hnone
    simp only [loadSubs]
    rw [hnone]
    rfl
  · have hls := loadSubs_all_transaction readCSV
      (s.replay_calendar.getD s.date_progress 0) s.replay_subscription hall
      s.replay_task
    refine ⟨{ s with
              progress := { s.progress with
                prompt := promptString (s.replay_calendar.getD s.date_progress 0)
                  s.date_progress s.replay_calendar.length },
              replay_task := sortByTime s.replay_task,
              date_progress := s.date_progress + 1 }, ?_, rfl, rfl⟩
    unfold next_trade_day
    rw [if_pos hc]
    dsimp only
    rw [hls]

theorem next_trade_day_ignores_non_collection_witness :
    stC10.date_progress < stC10.replay_calendar.length ∧
    (∀ p ∈ stC10.replay_subscription, p.2.2 = "TransactionData") ∧
    ((∀ (ld : Loader) (md : Int) (topic ticker dtype : String)
        (rest : List (String × (String × String))) (q : List MarketData),
      ld md ticker dtype = .ok PyData.pyNone →
      loadSubs ld md ((topic, (ticker, dtype)) :: rest) q = loadSubs ld md rest q) ∧
    ∃ s', next_trade_day (apiLoader rcsvC10) stC10 = .ok s' ∧
      s'.replay_task = sortByTime stC10.replay_task ∧
      s'.date_progress = stC10.date_progress + 1) :=
  ⟨by decide, by decide,
   next_trade_day_ignores_non_collection rcsvC10 stC10 (by decide) (by decide)⟩

/-- C1: the pull operation (spec-modelled `next_task`): on a non-empty queue
it removes and returns the front record, which under the sortedness invariant
has the earliest timestamp of all queued records; on an empty queue it calls
`next_trade_day` to refill before pulling again, and an error (in particular
`StopIteration` exhaustion) from `next_trade_day` propagates unchanged. -/
theorem next_task_pull_contract (ld : Loader) (s : ReplayState) :
    (∀ r rest, s.replay_task = r :: rest →
      next_task ld s = .ok (r, { s with replay_task := rest }) ∧
      (s.replay_task.Pairwise (fun a b => a.market_time ≤ b.market_time) →
        ∀ x ∈ s.replay_task, r.market_time ≤ x.market_time)) ∧
    (s.replay_task = [] →
      (∀ e, next_trade_day ld s = .error e → next_task ld s = .error e) ∧
      (∀ s', next_trade_day ld s = .ok s' → next_task ld s = next_task ld s')) := by
  constructor
  · intro r rest hq
    refine ⟨next_task_eq_cons ld s r rest hq, ?_⟩
    intro hsorted x hx
    rw [hq] at hsorted hx
    rw [List.pairwise_cons] at hsorted
    rcases List.mem_cons.mp hx with hh | hh
    · subst hh
      omega
    · exact hsorted.1 x hh
  · intro hq
    exact ⟨fun e he => next_task_eq_nil_err ld s e hq he,
           fun s' hs => next_task_eq_nil_ok ld s s' hq hs⟩

theorem next_task_pull_contract_witness :
    next_task wLoaderEmpty stC1 =
      .ok (⟨1, "a"⟩, { stC1 with replay_task := [⟨2, "b"⟩] }) :=
  ((next_task_pull_contract wLoaderEmpty stC1).1 ⟨1, "a"⟩ [⟨2, "b"⟩] rfl).1

/-- C5: whenever `__next__` encounters `StopIteration` from the pull, it marks
Progress complete (`done_tasks = 1`) and emits its report unless already
done, then calls `reset()`, and only then surfaces `StopIteration`: the state
carried by the surfaced exhaustion is the post-`reset()` state. -/
theorem dunderNext_exhaustion_resets_last (ld : Loader) (s s1 : ReplayState)
    (h : next_task ld s = .error (.stopIteration, s1)) :
    (s1.progress.is_done = true →
      ∀ s3, reset s1 = .ok s3 →
        dunderNext ld s = .error (.stopIteration, s3)) ∧
    (s1.progress.is_done = false →
      ∀ s3, reset { s1 with
          progress := Progress.output { s1.progress with done_tasks := 1 } } = .ok s3 →
        dunderNext ld s = .error (.stopIteration, s3)) := by
  constructor
  · intro hdone s3 hr
    unfold dunderNext
    rw [h]
    dsimp only
    rw [if_pos hdone]
    rw [hr]
  · intro hdone s3 hr
    unfold dunderNext
    rw [h]
    dsimp only
    rw [if_neg (by rw [hdone]; exact Bool.false_ne_true)]
    rw [hr]

theorem dunderNext_exhaustion_resets_last_witness :
    stC5.progress.is_done = false ∧
    reset stC5done = .ok stC5' ∧
    dunderNext wLoaderEmpty stC5 = .error (.stopIteration, stC5') :=
  ⟨rfl, rfl,
   (dunderNext_exhaustion_resets_last wLoaderEmpty stC5 stC5
      (next_task_eq_nil_err wLoaderEmpty stC5 (.stopIteration, stC5) rfl rfl)).2
     rfl stC5' rfl⟩
